import Mathlib

/-!
Verification of the nvim-dbee adapter layer (Mongo and DuckDB adapters)
against its natural-language specification.

The two source files embedded here are `dbee/adapters/mongo.go` and the
DuckDB adapter (`duck.go`).  The shared `core`/`builders` package (result
streams, the lazy sequence adapters, the gob codec of the standard
library) is not part of the sources; where a property depends on it, the
corresponding definition is modelled from the specification and marked as
such in its doc comment.

Conventions of the embedding:
* Go interface values that can fail a type assertion are modelled by the
  inductive `Bson` (for dynamic bson values) and `Cell` (for row cells).
* A Go function that can panic is modelled with the `GoOutcome` result
  type: `ok`, `goError` (an `error` return value) or `panic` (a runtime
  panic that crashes the process).
* Go maps (`bson.M`) are modelled as association lists carrying one
  concrete iteration order; theorems quantify over all orders.
-/

/-- A dynamic bson value (`any` holding `bson.M`, `bson.A`, a string, ...).
`doc` is a `bson.M` document given in one concrete map-iteration order. -/
inductive Bson where
  | doc : List (String × Bson) → Bson
  | arr : List Bson → Bson
  | str : String → Bson
  | int : Int → Bson

/-- The dynamic value envelope `mongoResponse`: wraps one opaque value. -/
structure MongoResponse where
  value : Bson

/-- A dynamic row cell (`any` inside a `core.Row`). -/
inductive Cell where
  | str : String → Cell
  | int : Int → Cell
  | resp : MongoResponse → Cell

/-- Result of running a piece of Go code: a normal result, a returned
`error` value, or a runtime panic (which crashes the process). -/
inductive GoOutcome (α : Type) where
  | ok : α → GoOutcome α
  | goError : String → GoOutcome α
  | panic : String → GoOutcome α

namespace GoOutcome

def isOk {α : Type} : GoOutcome α → Bool
  | .ok _ => true
  | _ => false

def isPanic {α : Type} : GoOutcome α → Bool
  | .panic _ => true
  | _ => false

end GoOutcome

/-- The producer body of the cursor branch of `mongoDriver.Query`
(mongo.go:121-137).  `cursor := cur.(bson.M)` is the single-value type
assertion, which panics when `cur` is not a `bson.M`; the following
`if !ok` tests the shadowed outer `ok` (the comma-ok of `resp["cursor"]`),
which is always `true` in this branch, so the intended error return is
dead code.  For each field of the cursor document whose value is a
`bson.A`, every item of that batch is yielded wrapped in a
`mongoResponse`; fields of any other type are skipped. -/
def mongoCursorProducer (cur : Bson) : GoOutcome (List MongoResponse) :=
  match cur with
  | .doc fields =>
      .ok (fields.flatMap fun f =>
        match f.2 with
        | .arr batch => batch.map MongoResponse.mk
        | _ => [])
  | _ => .panic "interface conversion: interface \x7b\x7d is not primitive.M"

/-- A result stream as the consumer sees it once buffered.

Modelled from the spec: `builders.NextYield` / `builders.NextSingle` and
the result-stream builder live in `core/builders`, which is not among the
sources.  Per the spec the emitting-function adapter drains the producer
into a buffer in emission order and hands items out one at a time; each
yielded value becomes one single-cell row; the builder attaches the
header, the metadata and an optional cleanup callback. -/
structure RStream where
  header : List String
  rows : List (List Cell)

/-- `mongoDriver.Query` after the backend reply `resp` (a `bson.M`, given
in iteration order) was decoded (mongo.go:115-151): if a `"cursor"` key is
present, the stream is built from the cursor producer; otherwise the whole
reply is yielded as one single value.  The header is always `["Reply"]`.
A panic of the producer is a panic of the whole call. -/
def mongoQueryStream (resp : List (String × Bson)) : GoOutcome RStream :=
  match resp.lookup "cursor" with
  | some cur =>
      match mongoCursorProducer cur with
      | .ok items => .ok ⟨["Reply"], items.map fun r => [Cell.resp r]⟩
      | .goError e => .goError e
      | .panic m => .panic m
  | none => .ok ⟨["Reply"], [[Cell.resp ⟨Bson.doc resp⟩]]⟩

/-- A catalog entry (`core.Structure`); `stype` is the `Type` field and
`table` is `core.StructureTypeTable`. -/
inductive StructureType where
  | table
deriving DecidableEq

structure DbStructure where
  name : String
  schema : String
  stype : StructureType

/-- `mongoDriver.Structure` (mongo.go:154-178) applied to the collection
names the backend listed: one `Table` entry per collection, empty schema. -/
def mongoStructure (collections : List String) : List DbStructure :=
  collections.map fun coll => ⟨coll, "", StructureType.table⟩

/-- The drain loop of `duckDriver.Structure` (duck.go:64-89) applied to
the rows of the stream returned by `Query`: `row[0].(string)` panics when
the first cell is not a string (and indexing an empty row panics too);
otherwise one `Table` entry with empty schema is appended per row. -/
def duckStructureRows : List (List Cell) → GoOutcome (List DbStructure)
  | [] => .ok []
  | row :: rest =>
      match row.head? with
      | some (Cell.str t) =>
          match duckStructureRows rest with
          | .ok tail => .ok (⟨t, "", StructureType.table⟩ :: tail)
          | .goError e => .goError e
          | .panic m => .panic m
      | some _ => .panic "interface conversion: interface \x7b\x7d is not string"
      | none => .panic "runtime error: index out of range [0]"

/-- An observable side effect on the backend connection. -/
inductive ConnAction where
  | closeConn
deriving DecidableEq

/-- A result stream together with its registered cleanup state.

Modelled from the spec: the result stream object lives in `core`, not
among the sources.  `pending` are the rows not yet pulled, `callback` the
cleanup action registered with `SetCallback`, and `cleanupDone` records
whether the single-execution guarantee has already fired. -/
structure DuckStream where
  pending : List (List Cell)
  callback : Option ConnAction
  cleanupDone : Bool

/-- A consumer operation on a result stream: an explicit `Close`, or a
`Next` pull. -/
inductive StreamOp where
  | close
  | next
deriving DecidableEq

/-- One consumer step on a stream, returning the new stream state and the
cleanup actions fired by the step.

Modelled from the spec: `Close()` triggers the registered cleanup exactly
once and is a no-op afterwards; consuming the last row (natural
exhaustion) triggers the same single-execution guarantee. -/
def DuckStream.step (s : DuckStream) : StreamOp → DuckStream × List ConnAction
  | .close =>
      if s.cleanupDone then (s, [])
      else ({ s with cleanupDone := true }, s.callback.toList)
  | .next =>
      match s.pending with
      | [] => (s, [])
      | [_] =>
          if s.cleanupDone then ({ s with pending := [] }, [])
          else ({ s with pending := [], cleanupDone := true }, s.callback.toList)
      | _ :: rest => ({ s with pending := rest }, [])

/-- Run a sequence of consumer operations, collecting all fired cleanup
actions in order. -/
def DuckStream.run (s : DuckStream) : List StreamOp → DuckStream × List ConnAction
  | [] => (s, [])
  | op :: ops =>
      let (s1, a1) := s.step op
      let (s2, a2) := s1.run ops
      (s2, a1 ++ a2)

/-- `duckDriver.Query` (duck.go:42-62).  `connRes` is the outcome of
`c.c.Conn(ctx)` and `queryRes` the outcome of `con.Query(ctx, query)`.
The deferred function closes the acquired connection iff the named `err`
is non-nil when `Query` returns; on success `rows.SetCallback` registers
closing the connection as the stream cleanup.  The second component lists
the connection-close actions performed before `Query` returns. -/
def duckQuery (connRes : Except String Unit)
    (queryRes : Except String (List (List Cell))) :
    Except String DuckStream × List ConnAction :=
  match connRes with
  | .error e => (.error e, [])
  | .ok _ =>
      match queryRes with
      | .error e => (.error e, [ConnAction.closeConn])
      | .ok rows =>
          (.ok ⟨rows, some ConnAction.closeConn, false⟩, [])

/-- `duckDriver.Structure` (duck.go:64-89): issue `SHOW TABLES;` through
`Query` and drain the returned stream into catalog entries. -/
def duckStructure (connRes : Except String Unit)
    (queryRes : Except String (List (List Cell))) :
    Except String (GoOutcome (List DbStructure)) :=
  match (duckQuery connRes queryRes).1 with
  | .error e => .error e
  | .ok s => .ok (duckStructureRows s.pending)

/-- A dynamic value as the gob codec sees it: the name of its concrete
type together with its (opaque) payload.

Modelled from the spec: `encoding/gob` is the standard library, not among
the sources.  The binary form is self-describing: it names the concrete
type and carries the payload. -/
structure GobValue where
  typeName : String
  payload : String
deriving DecidableEq

/-- The wire form produced by the gob encoder: the concrete type name
followed by the payload. -/
structure GobWire where
  typeName : String
  payload : String
deriving DecidableEq

/-- Outcome of a gob decode. -/
inductive GobResult (α : Type) where
  | ok : α → GobResult α
  | unknownType : String → GobResult α
deriving DecidableEq

/-- The process-wide gob type registry as populated by `init` in mongo.go
(lines 22-44): exactly the types passed to `gob.Register`; the
commented-out types (`primitive.DateTime`, `primitive.JavaScript`,
`primitive.MinKey`, `primitive.MaxKey`, `primitive.Undefined`,
`primitive.Symbol`) are NOT registered. -/
def gobRegistry : List String :=
  ["mongoResponse", "bson.A", "bson.M", "bson.D",
   "primitive.ObjectID", "primitive.Binary", "primitive.Regex",
   "primitive.CodeWithScope", "primitive.Timestamp",
   "primitive.Decimal128", "primitive.DBPointer"]

/-- Modelled from the spec: the generic reflective binary codec writes a
self-describing form naming the concrete type. -/
def gobEncodeValue (v : GobValue) : GobWire :=
  ⟨v.typeName, v.payload⟩

/-- Modelled from the spec: decoding reconstructs the original concrete
type via the process-wide registry and fails with `UnknownType` when the
named concrete type was never registered. -/
def gobDecodeValue (w : GobWire) : GobResult GobValue :=
  if w.typeName ∈ gobRegistry then .ok ⟨w.typeName, w.payload⟩
  else .unknownType w.typeName

/-- The dynamic value envelope over gob-codable values. -/
structure GobEnvelope where
  value : GobValue
deriving DecidableEq

/-- `mongoResponse.GobEncode` (mongo.go:238-247): encode the wrapped
value through the gob encoder. -/
def envelopeGobEncode (mr : GobEnvelope) : GobWire :=
  gobEncodeValue mr.value

/-- `mongoResponse.GobDecode` (mongo.go:249-258): decode the buffer into
the wrapped value, propagating the decoder error. -/
def envelopeGobDecode (buf : GobWire) : GobResult GobEnvelope :=
  match gobDecodeValue buf with
  | .ok v => .ok ⟨v⟩
  | .unknownType t => .unknownType t

/-- `mongoResponse.String` (mongo.go:226-232): return the indented JSON
rendering when `json.MarshalIndent` succeeds, otherwise fall back to
`fmt.Sprint` of the wrapped value.  `marshalIndent` stands for the
(fallible) `json.MarshalIndent` and `sprint` for the total `fmt.Sprint`. -/
def mongoResponseString (marshalIndent : Bson → Except String String)
    (sprint : Bson → String) (mr : MongoResponse) : String :=
  match marshalIndent mr.value with
  | .ok parsed => parsed
  | .error _ => sprint mr.value

/-- `mongoResponse.MarshalJSON` (mongo.go:234-236): delegate to
`json.Marshal` of the wrapped value.  `jsonMarshal` stands for
`json.Marshal`; bytes are modelled as a string. -/
def mongoResponseMarshalJSON (jsonMarshal : Bson → Except String String)
    (mr : MongoResponse) : Except String String :=
  jsonMarshal mr.value

/-- Go string slicing `s[i:]`, with the string as its character
sequence: panics (modelled as `none`) when `i > len(s)`. -/
def goSliceFrom (s : List Char) (i : Nat) : Option (List Char) :=
  if i ≤ s.length then some (s.drop i) else none

/-- The database-name computation of `Mongo.Connect` (mongo.go:50-67):
`u.Path[1:]` applied to the path component of the parsed URL.  `none`
means the slice expression panicked, so `Connect` returned neither a
driver nor an error. -/
def mongoConnectDbName (path : List Char) : Option (List Char) :=
  goSliceFrom path 1

/-- The regular-expression fragment relevant to database names: literal
characters and the one-or-more quantifier `+`.  A pattern is a list of
(character, quantified) pairs. -/
def lexPat : List Char → List (Char × Bool)
  | [] => []
  | [c] => [(c, false)]
  | c :: q :: rest =>
      if q = '+' then (c, true) :: lexPat rest
      else (c, false) :: lexPat (q :: rest)

/-- Anchored matching of a lexed pattern against a prefix of the text:
a quantified character consumes one or more copies. -/
def matchHere (ps : List (Char × Bool)) (s : List Char) : Bool :=
  match s with
  | [] => ps.isEmpty
  | x :: xs =>
      match ps with
      | [] => true
      | (c, false) :: ps2 => x == c && matchHere ps2 xs
      | (c, true) :: ps2 =>
          x == c && (matchHere ps2 xs || matchHere ((c, true) :: ps2) xs)

/-- Unanchored search: the pattern may match starting at any position
of the text (MongoDB `$regex` semantics for patterns of this fragment). -/
def matchSearch (ps : List (Char × Bool)) : List Char → Bool
  | [] => matchHere ps []
  | x :: xs => matchHere ps (x :: xs) || matchSearch ps xs

/-- Modelled semantics of the MongoDB server evaluating
`\x7bname: \x7b$not: \x7b$regex: pat\x7d\x7d\x7d` on one name: whether
`pat` matches `s`, for the literal/`+` fragment of regular expressions. -/
def regexMatch (pat s : String) : Bool :=
  matchSearch (lexPat pat.toList) s.toList

/-- `mongoDriver.ListDatabases` (mongo.go:184-207): returns the current
database name and the database names the server reports for the filter
`\x7bname: \x7b$not: \x7b$regex: dbName\x7d\x7d\x7d`, i.e. exactly those
names the current name does not match as a regular expression.
`matcher` stands for the server-side regex evaluation. -/
def mongoListDatabases (matcher : String → String → Bool) (dbName : String)
    (allDbs : List String) : String × List String :=
  (dbName, allDbs.filter fun n => !(matcher dbName n))

/-- Count of successful `Next` calls among `k` consecutive `Next` calls
on a buffered stream.

Modelled from the spec: `Next` succeeds exactly while the buffer is
nonempty and fails with `Exhausted` afterwards. -/
def runNexts : List (List Cell) → Nat → Nat
  | _, 0 => 0
  | [], _ + 1 => 0
  | _ :: rest, k + 1 => runNexts rest k + 1

/-- The name `duckDriver.Structure` reads off a well-formed row: the
string in its first cell. -/
def duckRowName (row : List Cell) : String :=
  match row with
  | Cell.str t :: _ => t
  | _ => ""

/-! ## Helper lemmas -/

theorem runNexts_eq_min (rows : List (List Cell)) :
    ∀ k : Nat, runNexts rows k = min rows.length k := by
  induction rows with
  | nil => intro k; cases k <;> simp [runNexts]
  | cons r rest ih =>
      intro k
      cases k with
      | zero => simp [runNexts]
      | succ n =>
          simp [runNexts, ih n, List.length_cons, Nat.succ_min_succ]

theorem sublist_flatMap_of_mem {α β : Type} (f : α → List β) :
    ∀ (l : List α) (x : α), x ∈ l → List.Sublist (f x) (l.flatMap f) := by
  intro l
  induction l with
  | nil => intro x hx; cases hx
  | cons a rest ih =>
      intro x hx
      rw [List.flatMap_cons]
      rcases List.mem_cons.mp hx with h | h
      · subst h; exact List.sublist_append_left (f x) (rest.flatMap f)
      · exact (ih x h).trans (List.sublist_append_right (f a) (rest.flatMap f))

theorem length_flatMap_sum {α β : Type} (f : α → List β) :
    ∀ l : List α, (l.flatMap f).length = (l.map fun x => (f x).length).sum := by
  intro l
  induction l with
  | nil => simp
  | cons a rest ih => simp [List.flatMap_cons, ih]

/-- The rows of the Mongo cursor stream, computed for a cursor whose
fields are all arrays: the wrapped items batch by batch. -/
theorem cursor_rows_flatMap (batches : List (String × List Bson)) :
    ((((batches.map fun nb => (nb.1, Bson.arr nb.2)).flatMap fun f =>
        match f.2 with
        | .arr batch => batch.map MongoResponse.mk
        | _ => ([] : List MongoResponse)).map fun r => [Cell.resp r]) =
      batches.flatMap fun nb => nb.2.map fun i => [Cell.resp ⟨i⟩]) := by
  induction batches with
  | nil => simp
  | cons nb rest ih =>
      simp only [List.map_cons, List.flatMap_cons, List.map_append, ih,
        List.map_map]
      rfl

/-! ## Claim theorems -/

/-- C1: evaluation of the code at the failing inputs.  A Mongo reply
whose `"cursor"` field is not a document map makes `mongoDriver.Query`
panic (the failed type assertion `cur.(bson.M)` crashes the process; the
intended error return is dead code because it tests the shadowed outer
`ok`), and a DuckDB `SHOW TABLES` row whose cell is not a string makes
`duckDriver.Structure` panic — neither surfaces a MalformedReply-style
error to the caller, contrary to the claim. -/
theorem mongo_duck_type_assertion_panics :
    mongoQueryStream [("cursor", Bson.str "x")] =
      GoOutcome.panic "interface conversion: interface \x7b\x7d is not primitive.M" ∧
    duckStructureRows [[Cell.int 3]] =
      GoOutcome.panic "interface conversion: interface \x7b\x7d is not string" :=
  ⟨rfl, rfl⟩

/-- C3: for every value whose concrete type name is in the gob registry
populated by `init`, decoding the encoding of an envelope wrapping the
value yields the very same envelope; for a value of an unregistered
concrete type, decoding fails with `UnknownType`. -/
theorem gob_envelope_roundtrip :
    (∀ v : GobValue, v.typeName ∈ gobRegistry →
      envelopeGobDecode (envelopeGobEncode ⟨v⟩) = GobResult.ok ⟨v⟩) ∧
    (∀ v : GobValue, v.typeName ∉ gobRegistry →
      envelopeGobDecode (envelopeGobEncode ⟨v⟩) = GobResult.unknownType v.typeName) := by
  constructor <;> intro v hv <;>
    simp [envelopeGobDecode, envelopeGobEncode, gobEncodeValue, gobDecodeValue, hv]

/-- C3 witness: a registered type (`bson.M`) round-trips; an unregistered
one (`primitive.DateTime`, commented out in `init`) fails with
`UnknownType`. -/
theorem gob_envelope_roundtrip_witness :
    envelopeGobDecode (envelopeGobEncode ⟨⟨"bson.M", "p"⟩⟩) =
      GobResult.ok ⟨⟨"bson.M", "p"⟩⟩ ∧
    envelopeGobDecode (envelopeGobEncode ⟨⟨"primitive.DateTime", "p"⟩⟩) =
      GobResult.unknownType "primitive.DateTime" :=
  ⟨gob_envelope_roundtrip.1 ⟨"bson.M", "p"⟩ (by decide),
   gob_envelope_roundtrip.2 ⟨"primitive.DateTime", "p"⟩ (by decide)⟩

/-- C6: the display rendering of the envelope is total: it returns the
indented-JSON rendering whenever `json.MarshalIndent` succeeds, and the
`fmt.Sprint` fallback (a total function) whenever it fails; no path
raises an error. -/
theorem mongoResponse_string_total_fallback
    (marshalIndent : Bson → Except String String) (sprint : Bson → String)
    (mr : MongoResponse) :
    (∀ s, marshalIndent mr.value = Except.ok s →
      mongoResponseString marshalIndent sprint mr = s) ∧
    (∀ e, marshalIndent mr.value = Except.error e →
      mongoResponseString marshalIndent sprint mr = sprint mr.value) := by
  constructor <;> intro x hx <;> simp [mongoResponseString, hx]

/-- C6 witness: both rendering paths at a concrete wrapped value. -/
theorem mongoResponse_string_total_fallback_witness :
    mongoResponseString (fun _ => Except.ok "json") (fun _ => "default")
      ⟨Bson.int 1⟩ = "json" ∧
    mongoResponseString (fun _ => Except.error "cannot marshal")
      (fun _ => "default") ⟨Bson.int 1⟩ = "default" :=
  ⟨(mongoResponse_string_total_fallback _ _ _).1 "json" rfl,
   (mongoResponse_string_total_fallback _ _ _).2 "cannot marshal" rfl⟩

/-- C7: every stream `mongoDriver.Query` returns has the fixed header
`["Reply"]`, and every row it ever yields has exactly one cell (the
header's arity), in the cursor branch as well as in the single-document
branch. -/
theorem mongoQuery_header_reply_arity_one (resp : List (String × Bson))
    (s : RStream) (h : mongoQueryStream resp = GoOutcome.ok s) :
    s.header = ["Reply"] ∧ ∀ row ∈ s.rows, row.length = s.header.length := by
  rcases hl : resp.lookup "cursor" with - | cur
  · simp only [mongoQueryStream, hl] at h
    cases h
    refine ⟨rfl, ?_⟩
    intro row hr
    simp at hr
    subst hr
    rfl
  · simp only [mongoQueryStream, hl] at h
    rcases hp : mongoCursorProducer cur with items | e | m <;> rw [hp] at h <;>
      cases h
    refine ⟨rfl, ?_⟩
    intro row hr
    rcases List.mem_map.mp hr with ⟨r, -, hrow⟩
    subst hrow
    rfl

/-- C7 witness: the single-document branch at the empty reply. -/
theorem mongoQuery_header_reply_arity_one_witness :
    (⟨["Reply"], [[Cell.resp ⟨Bson.doc []⟩]]⟩ : RStream).header = ["Reply"] ∧
    ∀ row ∈ (⟨["Reply"], [[Cell.resp ⟨Bson.doc []⟩]]⟩ : RStream).rows,
      row.length = (⟨["Reply"], [[Cell.resp ⟨Bson.doc []⟩]]⟩ : RStream).header.length :=
  mongoQuery_header_reply_arity_one [] _ rfl

/-- C8: JSON-encoding the envelope produces exactly the bytes of
JSON-encoding the wrapped value: `MarshalJSON` delegates with no added
structure. -/
theorem mongoResponse_marshalJSON_delegates
    (jsonMarshal : Bson → Except String String) (v : Bson) :
    mongoResponseMarshalJSON jsonMarshal ⟨v⟩ = jsonMarshal v :=
  rfl

/-- C9: `Mongo.Connect` is not total over well-formed URLs: for a
non-empty parsed path the database name is the path with its first
character (the leading slash) removed, while for an empty parsed path
(`mongodb://host`) the slice `u.Path[1:]` is out of range and the call
panics, returning neither a driver nor an error. -/
theorem mongoConnect_dbname_path_slice :
    (∀ path : List Char, path ≠ [] →
      mongoConnectDbName path = some (path.drop 1)) ∧
    (∀ rest : List Char, mongoConnectDbName ('/' :: rest) = some rest) ∧
    mongoConnectDbName [] = none := by
  refine ⟨?_, ?_, rfl⟩
  · intro path hp
    cases path with
    | nil => exact absurd rfl hp
    | cons c cs => simp [mongoConnectDbName, goSliceFrom]
  · intro rest
    simp [mongoConnectDbName, goSliceFrom]

/-- C9 witness: the path `/db` yields database name `db`; the empty path
panics. -/
theorem mongoConnect_dbname_path_slice_witness :
    mongoConnectDbName ['/', 'd', 'b'] = some ['d', 'b'] ∧
    mongoConnectDbName [] = none :=
  ⟨mongoConnect_dbname_path_slice.1 ['/', 'd', 'b'] (by decide),
   mongoConnect_dbname_path_slice.2.2⟩

/-- C10 counterexample: with the current database named `a+b`, the name
interpreted as a regular expression (`a+` is one-or-more `a`) does not
match the string `a+b` itself, so the server-side filter keeps it: the
current database appears in `available`, refuting "the current database
is always excluded from available".  (`ab`, which the pattern does
match, is excluded.) -/
theorem listDatabases_current_not_always_excluded :
    (mongoListDatabases regexMatch "a+b" ["a+b", "ab"]).1 = "a+b" ∧
    "a+b" ∈ (mongoListDatabases regexMatch "a+b" ["a+b", "ab"]).2 := by
  constructor
  · rfl
  · simp [mongoListDatabases, List.mem_filter]
    decide

/-- C10 (amended): `ListDatabases` returns the current database name as
`current`, and `available` contains exactly the databases whose names the
current name does NOT match as a regular expression; consequently every
database whose name the current name matches is excluded — the current
database among them whenever its name matches itself as a regex (as every
name without regex metacharacters does), but not in general. -/
theorem listDatabases_excludes_regex_matches
    (matcher : String → String → Bool) (dbName : String)
    (dbs : List String) :
    (mongoListDatabases matcher dbName dbs).1 = dbName ∧
    (mongoListDatabases matcher dbName dbs).2 =
      dbs.filter (fun n => !(matcher dbName n)) ∧
    (∀ n, matcher dbName n = true →
      n ∉ (mongoListDatabases matcher dbName dbs).2) := by
  refine ⟨rfl, rfl, ?_⟩
  intro n hn hmem
  simp [mongoListDatabases, List.mem_filter, hn] at hmem

/-- C10 witness: with current database `admin` (no metacharacters, so it
matches itself), `admin` is excluded from `available`. -/
theorem listDatabases_excludes_regex_matches_witness :
    "admin" ∉ (mongoListDatabases regexMatch "admin" ["admin", "test"]).2 :=
  (listDatabases_excludes_regex_matches regexMatch "admin"
    ["admin", "test"]).2.2 "admin" (by decide)

/-! ## Stream cleanup lemmas (for the DuckDB `Query` claim) -/

theorem DuckStream.step_callback (s : DuckStream) (op : StreamOp) :
    ((s.step op).1).callback = s.callback := by
  obtain ⟨p, cb, d⟩ := s
  cases op with
  | close => cases d <;> simp [DuckStream.step]
  | next =>
      rcases p with - | ⟨a, - | ⟨b, tl⟩⟩ <;> cases d <;>
        simp [DuckStream.step]

theorem DuckStream.step_done_mono (s : DuckStream) (op : StreamOp)
    (h : s.cleanupDone = true) : ((s.step op).1).cleanupDone = true := by
  obtain ⟨p, cb, d⟩ := s
  cases h
  cases op with
  | close => simp [DuckStream.step]
  | next => rcases p with - | ⟨a, - | ⟨b, tl⟩⟩ <;> simp [DuckStream.step]

theorem DuckStream.step_actions_of_done (s : DuckStream) (op : StreamOp)
    (h : s.cleanupDone = true) : (s.step op).2 = [] := by
  obtain ⟨p, cb, d⟩ := s
  cases h
  cases op with
  | close => simp [DuckStream.step]
  | next => rcases p with - | ⟨a, - | ⟨b, tl⟩⟩ <;> simp [DuckStream.step]

theorem DuckStream.step_fires (s : DuckStream) (op : StreamOp)
    (hcb : s.callback = some ConnAction.closeConn)
    (h : s.cleanupDone = false) :
    ((s.step op).2 = [] ∧ ((s.step op).1).cleanupDone = false) ∨
    ((s.step op).2 = [ConnAction.closeConn] ∧
      ((s.step op).1).cleanupDone = true) := by
  obtain ⟨p, cb, d⟩ := s
  cases h
  cases hcb
  cases op with
  | close => right; simp [DuckStream.step]
  | next =>
      rcases p with - | ⟨a, - | ⟨b, tl⟩⟩
      · left; simp [DuckStream.step]
      · right; simp [DuckStream.step]
      · left; simp [DuckStream.step]

theorem DuckStream.run_done_mono (ops : List StreamOp) :
    ∀ s : DuckStream, s.cleanupDone = true →
      ((s.run ops).1).cleanupDone = true := by
  induction ops with
  | nil => intro s h; simpa [DuckStream.run] using h
  | cons op ops ih =>
      intro s h
      simp only [DuckStream.run]
      exact ih _ (DuckStream.step_done_mono s op h)

theorem DuckStream.run_actions (ops : List StreamOp) :
    ∀ s : DuckStream, s.callback = some ConnAction.closeConn →
      (s.run ops).2 =
        (if s.cleanupDone = true then []
         else if ((s.run ops).1).cleanupDone = true then [ConnAction.closeConn]
         else []) := by
  induction ops with
  | nil =>
      intro s hcb
      by_cases h : s.cleanupDone <;> simp [DuckStream.run, h]
  | cons op ops ih =>
      intro s hcb
      simp only [DuckStream.run]
      by_cases h : s.cleanupDone
      · rw [DuckStream.step_actions_of_done s op h]
        rw [ih _ ((DuckStream.step_callback s op).trans hcb)]
        simp [DuckStream.step_done_mono s op h, h]
      · rcases DuckStream.step_fires s op hcb (by simpa using h) with
          ⟨ha, hd⟩ | ⟨ha, hd⟩
        · rw [ha, ih _ ((DuckStream.step_callback s op).trans hcb)]
          simp [h, hd]
        · rw [ha, ih _ ((DuckStream.step_callback s op).trans hcb)]
          simp [h, hd, DuckStream.run_done_mono ops _ hd]

theorem DuckStream.step_close_done (s : DuckStream) :
    ((s.step StreamOp.close).1).cleanupDone = true := by
  obtain ⟨p, cb, d⟩ := s
  cases d <;> simp [DuckStream.step]

theorem DuckStream.run_done_of_close (ops : List StreamOp) :
    ∀ s : DuckStream, StreamOp.close ∈ ops →
      ((s.run ops).1).cleanupDone = true := by
  induction ops with
  | nil => intro s h; cases h
  | cons op ops ih =>
      intro s h
      simp only [DuckStream.run]
      rcases List.mem_cons.mp h with h1 | h1
      · subst h1
        exact DuckStream.run_done_mono ops _ (DuckStream.step_close_done s)
      · exact ih _ h1

theorem DuckStream.step_exhaust (s : DuckStream) (op : StreamOp)
    (hne : s.pending ≠ []) (he : ((s.step op).1).pending = []) :
    ((s.step op).1).cleanupDone = true := by
  obtain ⟨p, cb, d⟩ := s
  cases op with
  | close =>
      exfalso
      apply hne
      cases d <;> simpa [DuckStream.step] using he
  | next =>
      rcases p with - | ⟨a, - | ⟨b, tl⟩⟩
      · exact absurd rfl hne
      · cases d <;> simp [DuckStream.step]
      · exfalso
        cases d <;> simp [DuckStream.step] at he

theorem DuckStream.run_exhaust (ops : List StreamOp) :
    ∀ s : DuckStream, s.pending ≠ [] → ((s.run ops).1).pending = [] →
      ((s.run ops).1).cleanupDone = true := by
  induction ops with
  | nil =>
      intro s hne he
      exact absurd he (by simpa [DuckStream.run] using hne)
  | cons op ops ih =>
      intro s hne he
      simp only [DuckStream.run] at he ⊢
      by_cases h1 : ((s.step op).1).pending = []
      · exact DuckStream.run_done_mono ops _
          (DuckStream.step_exhaust s op hne h1)
      · exact ih _ h1 he

/-- C2: in `duckDriver.Query`, once a connection has been acquired, any
later error closes the connection before `Query` returns the error; on
success no close happens inside `Query`, closing the connection is
registered as the stream's cleanup callback, and over every sequence of
consumer operations the callback fires at most once — and exactly once
when the consumer closes explicitly or drains the stream to exhaustion. -/
theorem duckQuery_cleanup_exactly_once :
    (∀ e : String,
      duckQuery (Except.ok ()) (Except.error e) =
        (Except.error e, [ConnAction.closeConn])) ∧
    (∀ (rows : List (List Cell)) (s : DuckStream),
      (duckQuery (Except.ok ()) (Except.ok rows)).1 = Except.ok s →
      s.callback = some ConnAction.closeConn ∧
      (duckQuery (Except.ok ()) (Except.ok rows)).2 = [] ∧
      ∀ ops : List StreamOp,
        ((s.run ops).2).length ≤ 1 ∧
        (StreamOp.close ∈ ops → (s.run ops).2 = [ConnAction.closeConn]) ∧
        (rows ≠ [] → ((s.run ops).1).pending = [] →
          (s.run ops).2 = [ConnAction.closeConn])) := by
  constructor
  · intro e; rfl
  · intro rows s h
    have hs : s = ⟨rows, some ConnAction.closeConn, false⟩ := by
      simpa [duckQuery] using h.symm
    subst hs
    refine ⟨rfl, rfl, ?_⟩
    intro ops
    have hact := DuckStream.run_actions ops
      ⟨rows, some ConnAction.closeConn, false⟩ rfl
    refine ⟨?_, ?_, ?_⟩
    · rw [hact]
      split <;> simp_all
      split <;> simp
    · intro hc
      rw [hact]
      have hd := DuckStream.run_done_of_close ops
        ⟨rows, some ConnAction.closeConn, false⟩ hc
      simp [hd]
    · intro hrows hpend
      rw [hact]
      have hd := DuckStream.run_exhaust ops
        ⟨rows, some ConnAction.closeConn, false⟩ (by simpa using hrows) hpend
      simp [hd]

/-- C2 witness: an error after the connection was acquired closes the
connection; on success, draining then closing fires the cleanup exactly
once. -/
theorem duckQuery_cleanup_exactly_once_witness :
    duckQuery (Except.ok ()) (Except.error "boom") =
      (Except.error "boom", [ConnAction.closeConn]) ∧
    ((⟨[[Cell.str "t"]], some ConnAction.closeConn, false⟩ : DuckStream).run
      [StreamOp.next, StreamOp.close]).2 = [ConnAction.closeConn] :=
  ⟨duckQuery_cleanup_exactly_once.1 "boom",
   ((duckQuery_cleanup_exactly_once.2 [[Cell.str "t"]]
      ⟨[[Cell.str "t"]], some ConnAction.closeConn, false⟩ rfl).2.2
      [StreamOp.next, StreamOp.close]).2.1 (by simp)⟩

theorem duckStructureRows_ok :
    ∀ rows : List (List Cell),
      (∀ row ∈ rows, ∃ t rest, row = Cell.str t :: rest) →
      duckStructureRows rows = GoOutcome.ok (rows.map fun row =>
        DbStructure.mk (duckRowName row) "" StructureType.table) := by
  intro rows
  induction rows with
  | nil => intro _; simp [duckStructureRows]
  | cons row rest ih =>
      intro hrows
      obtain ⟨t, rtl, hr⟩ := hrows row (List.mem_cons_self row rest)
      subst hr
      have ih2 := ih fun r hr2 => hrows r (List.mem_cons_of_mem _ hr2)
      simp [duckStructureRows, ih2, duckRowName]

/-- C4: for every cursor reply whose batches hold N documents in total
(in any map-iteration order of the named batches), the stream built by
`mongoDriver.Query` yields exactly N successful `Next` calls, and the
rows of each batch appear in their order within that batch; the order
across batches is whatever the iteration order was. -/
theorem mongoQuery_cursor_batches (resp : List (String × Bson))
    (batches : List (String × List Bson))
    (h : resp.lookup "cursor" =
      some (Bson.doc (batches.map fun nb => (nb.1, Bson.arr nb.2)))) :
    ∃ s : RStream, mongoQueryStream resp = GoOutcome.ok s ∧
      s.rows = (batches.flatMap fun nb => nb.2.map fun i => [Cell.resp ⟨i⟩]) ∧
      (∀ k : Nat, runNexts s.rows k =
        min ((batches.map fun nb => nb.2.length).sum) k) ∧
      ∀ nb ∈ batches,
        List.Sublist (nb.2.map fun i => [Cell.resp ⟨i⟩]) s.rows := by
  refine ⟨⟨["Reply"],
    batches.flatMap fun nb => nb.2.map fun i => [Cell.resp ⟨i⟩]⟩,
    ?_, rfl, ?_, ?_⟩
  · simp only [mongoQueryStream, h, mongoCursorProducer]
    rw [cursor_rows_flatMap]
  · intro k
    rw [runNexts_eq_min]
    congr 1
    rw [length_flatMap_sum]
    simp
  · intro nb hnb
    exact sublist_flatMap_of_mem
      (fun nb => nb.2.map fun i => [Cell.resp ⟨i⟩]) batches nb hnb

/-- C4 witness: a cursor reply with two named batches holding three
documents in total. -/
theorem mongoQuery_cursor_batches_witness :
    ∃ s : RStream,
      mongoQueryStream [("cursor", Bson.doc
        [("firstBatch", Bson.arr [Bson.int 1, Bson.int 2]),
         ("nextBatch", Bson.arr [Bson.int 3])])] = GoOutcome.ok s ∧
      s.rows = ([("firstBatch", [Bson.int 1, Bson.int 2]),
        ("nextBatch", [Bson.int 3])].flatMap fun nb =>
          nb.2.map fun i => [Cell.resp ⟨i⟩]) ∧
      (∀ k : Nat, runNexts s.rows k =
        min (([("firstBatch", [Bson.int 1, Bson.int 2]),
          ("nextBatch", [Bson.int 3])].map fun nb => nb.2.length).sum) k) ∧
      ∀ nb ∈ [("firstBatch", [Bson.int 1, Bson.int 2]),
        ("nextBatch", [Bson.int 3])],
        List.Sublist (nb.2.map fun i => [Cell.resp ⟨i⟩]) s.rows :=
  mongoQuery_cursor_batches _
    [("firstBatch", [Bson.int 1, Bson.int 2]), ("nextBatch", [Bson.int 3])]
    rfl

/-- C5: `Structure()` for catalog-less backends lists collection/table
names: the Mongo driver returns one entry per collection name, in the
backend's order, with empty schema and the `Table` kind; the DuckDB
driver implements `Structure` by issuing a `SHOW TABLES;` query through
`Query` and draining the returned stream into the same entry shape. -/
theorem structure_lists_collections_as_tables :
    (∀ collections : List String,
      (mongoStructure collections).length = collections.length ∧
      ∀ i : Nat, (mongoStructure collections).get? i =
        (collections.get? i).map fun c =>
          DbStructure.mk c "" StructureType.table) ∧
    (∀ rows : List (List Cell),
      (∀ row ∈ rows, ∃ t rest, row = Cell.str t :: rest) →
      duckStructure (Except.ok ()) (Except.ok rows) =
        Except.ok (GoOutcome.ok (rows.map fun row =>
          DbStructure.mk (duckRowName row) "" StructureType.table))) := by
  constructor
  · intro collections
    refine ⟨by simp [mongoStructure], ?_⟩
    intro i
    simp [mongoStructure]
  · intro rows hrows
    simp [duckStructure, duckQuery, duckStructureRows_ok rows hrows]

/-- C5 witness: the spec scenario — collections `["a","b"]` yield
`[{Name:"a",Schema:"",Type:Table},{Name:"b",Schema:"",Type:Table}]`, for
Mongo and DuckDB alike. -/
theorem structure_lists_collections_as_tables_witness :
    (mongoStructure ["a", "b"]).get? 0 =
      some (DbStructure.mk "a" "" StructureType.table) ∧
    (mongoStructure ["a", "b"]).get? 1 =
      some (DbStructure.mk "b" "" StructureType.table) ∧
    duckStructure (Except.ok ()) (Except.ok [[Cell.str "a"], [Cell.str "b"]]) =
      Except.ok (GoOutcome.ok
        [DbStructure.mk "a" "" StructureType.table,
         DbStructure.mk "b" "" StructureType.table]) := by
  have h := structure_lists_collections_as_tables
  refine ⟨by simpa using (h.1 ["a", "b"]).2 0,
    by simpa using (h.1 ["a", "b"]).2 1, ?_⟩
  have h2 := h.2 [[Cell.str "a"], [Cell.str "b"]] ?_
  · simpa [duckRowName] using h2
  · intro row hr
    rcases List.mem_cons.mp hr with h1 | h1
    · exact ⟨"a", [], h1⟩
    · rcases List.mem_cons.mp h1 with h3 | h3
      · exact ⟨"b", [], h3⟩
      · cases h3
